import Mathlib

/-!
Shallow embedding of `genie-worldmodel/scripts/inference_server.py`.

A pixel frame is modelled as the list of its scalar values in the
normalized signed range (batch size is 1 throughout the server, and the
spatial layout is irrelevant to the orchestration contract, so a frame is
just its flattened value list).  The video tokenizer, the latent action
model and the dynamics model are external collaborators; they are
modelled as a record of functions that may fail (`Except String`), and
`step` records every call it makes to them so that theorems can speak
about the arguments passed across the gateway boundary.
-/

namespace SandlotSluggers

abbrev Frame := List ℚ
abbrev Indices := List ℤ
abbrev Latents := List ℚ

/-- Python slice `xs[-w:]`.  For `w > 0` it is the suffix of the last
`min w (length xs)` elements; for `w = 0` the slice `[-0:]` is `[0:]`,
the whole list. -/
def pySliceLast (w : Nat) (xs : List α) : List α :=
  if w = 0 then xs else xs.drop (xs.length - w)

/-- The external collaborators used by `GenieInferenceSession.step`:
`self.vt.tokenize`, `self.vt.quantizer.get_latents_from_indices`,
`self.lam.quantizer.codebook_size`,
`self.lam.quantizer.get_latents_from_indices` and
`self.dynamics.forward_inference` / `self.vt.detokenize`. -/
structure Gateways where
  tokenize : List Frame → Except String Indices
  vt_get_latents_from_indices : Indices → Except String Latents
  codebook_size : Nat
  lam_get_latents_from_indices : ℤ → Except String Latents
  forward_inference : Latents → Nat → Nat → Option Latents → ℚ → Except String Latents
  detokenize : Latents → Except String (List Frame)

/-- Session state, mirroring `GenieInferenceSession.__init__`.
`hasLam` records whether `latent_action_model` is `None`;
`generated_frames` is `None` until `set_initial_context` runs, then the
list of frames along the time dimension. -/
structure GenieInferenceSession where
  device : String
  context_window : Nat
  temperature : ℚ
  prediction_horizon : Nat
  amp : Bool
  hasLam : Bool
  generated_frames : Option (List Frame)
deriving DecidableEq, Repr

/-- Errors `step` can raise: the guard `RuntimeError` for a missing
initial context, any exception out of a gateway call, and the
`IndexError` of `next_frames[0, -1]` on an empty prediction. -/
inductive StepErr where
  | uninitializedSession : StepErr
  | generation : String → StepErr
  | indexError : StepErr
deriving DecidableEq, Repr

/-- One call made by `step` across the gateway boundary, with the
arguments the Python code passes. -/
inductive GatewayCall where
  | tokenize : List Frame → GatewayCall
  | vtLatents : Indices → GatewayCall
  | lamLatents : ℤ → GatewayCall
  | forwardInference : Latents → Nat → Nat → Option Latents → ℚ → GatewayCall
  | detokenize : Latents → GatewayCall
deriving DecidableEq, Repr

/-- What one call to `step` produces: the raised-or-returned value, the
session state after the call, and the gateway calls made, in order. -/
structure StepOutcome where
  result : Except StepErr (List ℤ)
  state : GenieInferenceSession
  calls : List GatewayCall
deriving Repr

/-- `torch.clamp(v, -1, 1)` on one scalar. -/
def clamp1 (v : ℚ) : ℚ := min 1 (max (-1) v)

/-- The per-value display conversion of `step` lines 99-100:
`clamp(-1, 1)`, then `(v + 1) * 127.5`, then `.byte()`.  After the clamp
the value is in `[0, 255]`, so the uint8 cast truncates toward zero,
i.e. takes the floor. -/
def displayCode (v : ℚ) : ℤ := ⌊(clamp1 v + 1) * (255 / 2)⌋

/-- `GenieInferenceSession.set_initial_context`: replaces the whole
history with the given frames. -/
def set_initial_context (s : GenieInferenceSession) (frames : List Frame) :
    GenieInferenceSession :=
  { s with generated_frames := some frames }

/-- The session with its history replaced (the effect of the assignment
to `self.generated_frames` on line 94). -/
def withHistory (s : GenieInferenceSession) (h : List Frame) :
    GenieInferenceSession :=
  { s with generated_frames := some h }

/-- `n_actions` of `step` line 71: the action codebook size when a
latent action model is present, else 1. -/
def n_actions (gw : Gateways) (s : GenieInferenceSession) : ℤ :=
  if s.hasLam then (gw.codebook_size : ℤ) else 1

/-- Body of `step` once the action id has been reduced modulo
`n_actions` (line 72); `aid` is the reduced id.  Each gateway call is
recorded when made, and a raising call returns the state unchanged;
the history is extended only after `detokenize` succeeds (line 94),
before the final frame conversion that can still raise `IndexError`. -/
def stepAux (gw : Gateways) (s : GenieInferenceSession) (aid : ℤ) : StepOutcome :=
  match s.generated_frames with
  | none => ⟨.error .uninitializedSession, s, []⟩
  | some hist =>
    let context := pySliceLast s.context_window hist
    match gw.tokenize context with
    | .error m => ⟨.error (.generation m), s, [.tokenize context]⟩
    | .ok video_indices =>
      match gw.vt_get_latents_from_indices video_indices with
      | .error m => ⟨.error (.generation m), s,
          [.tokenize context, .vtLatents video_indices]⟩
      | .ok video_latents =>
        let lamCalls : List GatewayCall :=
          if s.hasLam then [.lamLatents aid] else []
        let lamResult : Except String (Option Latents) :=
          if s.hasLam then
            match gw.lam_get_latents_from_indices aid with
            | .error m => .error m
            | .ok l => .ok (some l)
          else .ok none
        match lamResult with
        | .error m => ⟨.error (.generation m), s,
            [.tokenize context, .vtLatents video_indices] ++ lamCalls⟩
        | .ok action_latent =>
          let preCalls := [.tokenize context, .vtLatents video_indices] ++ lamCalls
            ++ [.forwardInference video_latents s.prediction_horizon 10
                  action_latent s.temperature]
          match gw.forward_inference video_latents s.prediction_horizon 10
              action_latent s.temperature with
          | .error m => ⟨.error (.generation m), s, preCalls⟩
          | .ok next_latents =>
            let allCalls := preCalls ++ [.detokenize next_latents]
            match gw.detokenize next_latents with
            | .error m => ⟨.error (.generation m), s, allCalls⟩
            | .ok next_frames =>
              let s2 := withHistory s
                (hist ++ pySliceLast s.prediction_horizon next_frames)
              match next_frames.getLast? with
              | none => ⟨.error .indexError, s2, allCalls⟩
              | some f => ⟨.ok (f.map displayCode), s2, allCalls⟩

/-- `GenieInferenceSession.step`: the action id is used only through
`action_id % n_actions` (line 72). -/
def step (gw : Gateways) (s : GenieInferenceSession) (action_id : ℤ) : StepOutcome :=
  stepAux gw s (action_id % n_actions gw s)

/-- Length of the session history (0 while uninitialized). -/
def historyLength (s : GenieInferenceSession) : Nat :=
  (s.generated_frames.getD []).length

/-- The frame window handed to the gateway pipeline: the argument of the
first recorded `tokenize` call, if any. -/
def firstContext (o : StepOutcome) : Option (List Frame) :=
  match o.calls with
  | .tokenize c :: _ => some c
  | _ => none

/-- What one run of `handle_client` produces: the session state when the
handler returns, the frames sent to the client in order, and whether the
message loop ended normally (client closed the stream) rather than by an
exception caught by the `except` block. -/
structure HandlerOutcome where
  state : GenieInferenceSession
  sent : List (List ℤ)
  completed : Bool
deriving Repr

/-- The `handle_client` coroutine, over the sequence of incoming
messages.  A message is `some a` when `json.loads` and
`int(data.get("action", 0))` yield the action `a`, and `none` when
decoding raises.  Any exception — a decode failure or a raising `step` —
is caught by the surrounding `except`, which ends the loop: the handler
returns and the connection is closed. -/
def handle_client (gw : Gateways) :
    List (Option ℤ) → GenieInferenceSession → HandlerOutcome
  | [], s => ⟨s, [], true⟩
  | none :: _, s => ⟨s, [], false⟩
  | some a :: rest, s =>
    let o := step gw s a
    match o.result with
    | .error _ => ⟨o.state, [], false⟩
    | .ok out =>
      let r := handle_client gw rest o.state
      ⟨r.state, out :: r.sent, r.completed⟩

/-- The server state built by `main`: a single `GenieInferenceSession`
is created once, before serving. -/
structure ServerState where
  session : GenieInferenceSession
deriving DecidableEq, Repr

/-- The session serving a given connection.  `main` passes the one
shared session to every `handle_client` invocation
(`lambda ws: handle_client(ws, session)`), so the view does not depend
on the connection id. -/
def sessionFor (st : ServerState) (_conn : Nat) : GenieInferenceSession :=
  st.session

/-- One connection's whole message exchange, as `main` wires it: run
`handle_client` on the session serving that connection; the mutations it
makes land in the shared server state. -/
def serveConnection (gw : Gateways) (st : ServerState) (conn : Nat)
    (msgs : List (Option ℤ)) : HandlerOutcome × ServerState :=
  let r := handle_client gw msgs (sessionFor st conn)
  (r, ⟨r.state⟩)

/-- Modelled from the spec (§6): the display conversion the spec claims,
`display = clamp(round((latent_val + 1) * 127.5), 0, 255)` — rounding,
then clamping to the byte range.  Compared below against `displayCode`,
the conversion the code performs. -/
def display_spec (v : ℚ) : ℤ := max 0 (min 255 (round ((v + 1) * (255 / 2))))

/-- Gateways in which every call succeeds and a successful `detokenize`
is never empty (the collaborator contract of §6: decoding predicted
latents yields the predicted frames). -/
def GatewaysTotal (gw : Gateways) : Prop :=
  (∀ c, ∃ i, gw.tokenize c = .ok i) ∧
  (∀ i, ∃ l, gw.vt_get_latents_from_indices i = .ok l) ∧
  (∀ a, ∃ l, gw.lam_get_latents_from_indices a = .ok l) ∧
  (∀ c h n o t, ∃ l, gw.forward_inference c h n o t = .ok l) ∧
  (∀ l, ∃ fs, gw.detokenize l = .ok fs ∧ fs ≠ [])

/-- Concrete deterministic gateways for witnesses: every call succeeds,
the action codebook has 5 entries, and `detokenize` always yields the
single frame whose one value is 0. -/
def gwOK : Gateways where
  tokenize := fun _ => .ok [0]
  vt_get_latents_from_indices := fun _ => .ok [0]
  codebook_size := 5
  lam_get_latents_from_indices := fun _ => .ok [0]
  forward_inference := fun _ _ _ _ _ => .ok [0]
  detokenize := fun _ => .ok [[0]]

/-- Concrete gateways whose `forward_inference` raises, for failure
witnesses. -/
def gwPredictFails : Gateways where
  tokenize := fun _ => .ok [0]
  vt_get_latents_from_indices := fun _ => .ok [0]
  codebook_size := 5
  lam_get_latents_from_indices := fun _ => .ok [0]
  forward_inference := fun _ _ _ _ _ => .error "device error"
  detokenize := fun _ => .ok [[0]]

/-- A session with the default configuration of `__init__`
(`context_window = 4`, `temperature = 0.5`, `prediction_horizon = 1`,
`amp = True`), an action model present, and a one-frame history. -/
def sInit : GenieInferenceSession where
  device := "cuda"
  context_window := 4
  temperature := 1 / 2
  prediction_horizon := 1
  amp := true
  hasLam := true
  generated_frames := some [[0]]

/-- The same configuration before any `set_initial_context` call. -/
def sNoCtx : GenieInferenceSession where
  device := "cuda"
  context_window := 4
  temperature := 1 / 2
  prediction_horizon := 1
  amp := true
  hasLam := true
  generated_frames := none

/-- A session like `sInit` whose history holds three frames. -/
def sThree : GenieInferenceSession :=
  { sInit with generated_frames := some [[0], [0], [0]] }

/-- A session like `sInit` with `context_window = 0`. -/
def sW0 : GenieInferenceSession := { sInit with context_window := 0 }

/-- A session like `sInit` with `context_window = 1`. -/
def sW1 : GenieInferenceSession := { sInit with context_window := 1 }

/-- A recorded gateway call whose underlying gateway function raises on
the recorded argument. -/
def CallFails (gw : Gateways) : GatewayCall → Prop
  | .tokenize ctx => ∃ m, gw.tokenize ctx = .error m
  | .vtLatents i => ∃ m, gw.vt_get_latents_from_indices i = .error m
  | .lamLatents a => ∃ m, gw.lam_get_latents_from_indices a = .error m
  | .forwardInference c h n o t => ∃ m, gw.forward_inference c h n o t = .error m
  | .detokenize l => ∃ m, gw.detokenize l = .error m


/-- C5: calling `step` before `set_initial_context` raises the
uninitialized-session error, leaves the history unset, makes no gateway
call, and returns no frame. -/
theorem step_before_init_raises (gw : Gateways) (s : GenieInferenceSession)
    (a : ℤ) (h : s.generated_frames = none) :
    step gw s a = ⟨.error .uninitializedSession, s, []⟩ := by
  unfold step stepAux
  rw [h]

/-- Witness for C5 at the concrete uninitialized session `sNoCtx`. -/
theorem step_before_init_raises_witness :
    step gwOK sNoCtx 0 = ⟨.error .uninitializedSession, sNoCtx, []⟩ :=
  step_before_init_raises gwOK sNoCtx 0 rfl

/-- Exhaustive case analysis of one `step` call: either the session was
never given an initial context and the guard fires, or the last `W`
frames of the history are handed to `tokenize`, every
`forward_inference` call carries the constant 10 refinement steps, and
the call then either propagates a gateway failure with the state intact,
or extends the history with the last `H` decoded frames (with the final
frame conversion still able to raise on an empty decode). -/
theorem step_cases (gw : Gateways) (s : GenieInferenceSession) (a : ℤ) :
    (s.generated_frames = none ∧ step gw s a = ⟨.error .uninitializedSession, s, []⟩) ∨
    (∃ hist, s.generated_frames = some hist ∧
      firstContext (step gw s a) = some (pySliceLast s.context_window hist) ∧
      (∀ c h n o t, GatewayCall.forwardInference c h n o t ∈ (step gw s a).calls →
        n = 10) ∧
      ((∃ m, (step gw s a).result = .error (.generation m) ∧ (step gw s a).state = s ∧
          ∃ c, c ∈ (step gw s a).calls ∧ CallFails gw c) ∨
       (∃ nf l, gw.detokenize l = .ok nf ∧
         (step gw s a).state =
           withHistory s (hist ++ pySliceLast s.prediction_horizon nf) ∧
         ((nf = [] ∧ (step gw s a).result = .error .indexError) ∨
          (∃ f, nf.getLast? = some f ∧
            (step gw s a).result = .ok (f.map displayCode)))))) := by
  unfold step stepAux
  rcases hgen : s.generated_frames with _ | hist
  · exact Or.inl ⟨rfl, by simp only [hgen]⟩
  · simp only [hgen]
    rcases htok : gw.tokenize (pySliceLast s.context_window hist) with m1 | vi

    · simp only [htok]
      exact Or.inr ⟨hist, rfl, rfl, by simp, Or.inl ⟨m1, rfl, trivial,
        .tokenize (pySliceLast s.context_window hist), by simp, m1, htok⟩⟩
    · simp only [htok]
      rcases hvt : gw.vt_get_latents_from_indices vi with m2 | vl
      · simp only [hvt]
        exact Or.inr ⟨hist, rfl, rfl, by simp, Or.inl ⟨m2, rfl, trivial,
          .vtLatents vi, by simp, m2, hvt⟩⟩
      · simp only [hvt]
        by_cases hLam : s.hasLam = true
        · simp only [if_pos hLam]
          rcases hlam : gw.lam_get_latents_from_indices (a % n_actions gw s) with m3 | al
          · simp only [hlam]
            exact Or.inr ⟨hist, rfl, rfl, by simp, Or.inl ⟨m3, rfl, trivial,
              .lamLatents (a % n_actions gw s), by simp, m3, hlam⟩⟩
          · simp only [hlam]
            rcases hfi : gw.forward_inference vl s.prediction_horizon 10 (some al)
                s.temperature with m4 | nl
            · simp only [hfi]
              refine Or.inr ⟨hist, rfl, rfl, ?_, Or.inl ⟨m4, rfl, trivial,
                .forwardInference vl s.prediction_horizon 10 (some al) s.temperature,
                by simp, m4, hfi⟩⟩
              intro c h n o t hmem
              simp only [List.cons_append, List.nil_append, List.mem_cons,
                List.not_mem_nil, or_false] at hmem
              rcases hmem with h1 | h1 | h1 | h1 <;> simp_all
            · simp only [hfi]
              rcases hdet : gw.detokenize nl with m5 | nf
              · simp only [hdet]
                refine Or.inr ⟨hist, rfl, rfl, ?_, Or.inl ⟨m5, rfl, trivial,
                  .detokenize nl, by simp, m5, hdet⟩⟩
                intro c h n o t hmem
                simp only [List.cons_append, List.nil_append, List.mem_cons,
                  List.not_mem_nil, or_false] at hmem
                rcases hmem with h1 | h1 | h1 | h1 | h1 <;> simp_all
              · simp only [hdet]
                have hcalls : ∀ c h n o t,
                    GatewayCall.forwardInference c h n o t ∈
                      [GatewayCall.tokenize (pySliceLast s.context_window hist),
                       GatewayCall.vtLatents vi,
                       GatewayCall.lamLatents (a % n_actions gw s),
                       GatewayCall.forwardInference vl s.prediction_horizon 10
                         (some al) s.temperature,
                       GatewayCall.detokenize nl] → n = 10 := by
                  intro c h n o t hmem
                  simp only [List.mem_cons, List.not_mem_nil, or_false] at hmem
                  rcases hmem with h1 | h1 | h1 | h1 | h1 <;> simp_all
                rcases hlast : nf.getLast? with _ | f
                · simp only [hlast]
                  exact Or.inr ⟨hist, rfl, rfl, hcalls, Or.inr ⟨nf, nl, hdet, rfl,
                    Or.inl ⟨List.getLast?_eq_none_iff.mp hlast, trivial⟩⟩⟩
                · simp only [hlast]
                  exact Or.inr ⟨hist, rfl, rfl, hcalls, Or.inr ⟨nf, nl, hdet, rfl,
                    Or.inr ⟨f, hlast, rfl⟩⟩⟩
        · simp only [if_neg hLam]
          rcases hfi : gw.forward_inference vl s.prediction_horizon 10 none
              s.temperature with m4 | nl
          · simp only [hfi]
            refine Or.inr ⟨hist, rfl, rfl, ?_, Or.inl ⟨m4, rfl, trivial,
              .forwardInference vl s.prediction_horizon 10 none s.temperature,
              by simp, m4, hfi⟩⟩
            intro c h n o t hmem
            simp only [List.cons_append, List.nil_append, List.mem_cons,
              List.not_mem_nil, or_false] at hmem
            rcases hmem with h1 | h1 | h1 <;> simp_all
          · simp only [hfi]
            rcases hdet : gw.detokenize nl with m5 | nf
            · simp only [hdet]
              refine Or.inr ⟨hist, rfl, rfl, ?_, Or.inl ⟨m5, rfl, trivial,
                .detokenize nl, by simp, m5, hdet⟩⟩
              intro c h n o t hmem
              simp only [List.cons_append, List.nil_append, List.mem_cons,
                List.not_mem_nil, or_false] at hmem
              rcases hmem with h1 | h1 | h1 | h1 <;> simp_all
            · simp only [hdet]
              have hcalls : ∀ c h n o t,
                  GatewayCall.forwardInference c h n o t ∈
                    [GatewayCall.tokenize (pySliceLast s.context_window hist),
                     GatewayCall.vtLatents vi,
                     GatewayCall.forwardInference vl s.prediction_horizon 10
                       none s.temperature,
                     GatewayCall.detokenize nl] → n = 10 := by
                intro c h n o t hmem
                simp only [List.cons_append, List.nil_append, List.mem_cons,
                  List.not_mem_nil, or_false] at hmem
                rcases hmem with h1 | h1 | h1 | h1 <;> simp_all
              rcases hlast : nf.getLast? with _ | f
              · simp only [hlast]
                exact Or.inr ⟨hist, rfl, rfl, hcalls, Or.inr ⟨nf, nl, hdet, rfl,
                  Or.inl ⟨List.getLast?_eq_none_iff.mp hlast, trivial⟩⟩⟩
              · simp only [hlast]
                exact Or.inr ⟨hist, rfl, rfl, hcalls, Or.inr ⟨nf, nl, hdet, rfl,
                  Or.inr ⟨f, hlast, rfl⟩⟩⟩

/-- C2: when a gateway call inside `step` raises (the result is a
`generation` error), the session state — in particular `FrameHistory` —
is exactly what it was before the call, and no frame is returned. -/
theorem step_gateway_failure_atomic (gw : Gateways)
    (s : GenieInferenceSession) (a : ℤ) (m : String)
    (hfail : (step gw s a).result = .error (.generation m)) :
    (step gw s a).state = s ∧ ∀ out, (step gw s a).result ≠ .ok out := by
  refine ⟨?_, by simp [hfail]⟩
  rcases step_cases gw s a with ⟨_, heq⟩ | ⟨hist, _, _, _, hbr⟩
  · rw [heq] at hfail; simp at hfail
  · rcases hbr with ⟨m2, _, hstate, _⟩ | ⟨nf, l, _, _, sub⟩
    · exact hstate
    · rcases sub with ⟨_, hr⟩ | ⟨f, _, hr⟩ <;> rw [hr] at hfail <;> simp at hfail

/-- Witness for C2: a failing dynamics model leaves the concrete session
`sInit` untouched. -/
theorem step_gateway_failure_atomic_witness :
    (step gwPredictFails sInit 2).state = sInit ∧
    ∀ out, (step gwPredictFails sInit 2).result ≠ .ok out :=
  step_gateway_failure_atomic gwPredictFails sInit 2 "device error" rfl

theorem pySliceLast_length {α : Type _} (w : Nat) (xs : List α) (hw : w ≠ 0)
    (hle : w ≤ xs.length) : (pySliceLast w xs).length = w := by
  unfold pySliceLast
  rw [if_neg hw, List.length_drop]
  omega

theorem pySliceLast_suffix {α : Type _} (w : Nat) (xs : List α) :
    ∃ pre, xs = pre ++ pySliceLast w xs := by
  unfold pySliceLast
  split
  · exact ⟨[], rfl⟩
  · exact ⟨xs.take (xs.length - w), (List.take_append_drop _ xs).symm⟩

theorem pySliceLast_of_lt {α : Type _} (w : Nat) (xs : List α)
    (h : xs.length < w) : pySliceLast w xs = xs := by
  unfold pySliceLast
  rw [if_neg (by omega), show xs.length - w = 0 by omega, List.drop_zero]

/-- C3: the action id is used by `step` only modulo the action codebook
size: `step (a + k * codebookSize)` behaves identically to `step a`, the
effective id is `a % codebookSize`, and any out-of-range id wraps into
`[0, codebookSize)` instead of raising. -/
theorem step_action_id_mod (gw : Gateways) (s : GenieInferenceSession)
    (a k : ℤ) (hLam : s.hasLam = true) (hcb : 0 < gw.codebook_size) :
    step gw s (a + k * (gw.codebook_size : ℤ)) = step gw s a ∧
    (a + k * (gw.codebook_size : ℤ)) % (gw.codebook_size : ℤ) =
      a % (gw.codebook_size : ℤ) ∧
    0 ≤ a % (gw.codebook_size : ℤ) ∧
    a % (gw.codebook_size : ℤ) < (gw.codebook_size : ℤ) := by
  have hne : (gw.codebook_size : ℤ) ≠ 0 := by exact_mod_cast hcb.ne'
  have hpos : (0 : ℤ) < (gw.codebook_size : ℤ) := by exact_mod_cast hcb
  refine ⟨?_, Int.add_mul_emod_self, Int.emod_nonneg a hne,
    Int.emod_lt_of_pos a hpos⟩
  have hn : n_actions gw s = (gw.codebook_size : ℤ) := by
    unfold n_actions
    rw [if_pos hLam]
  unfold step
  rw [hn, Int.add_mul_emod_self]

/-- Witness for C3 at `a = 2`, `k = 1`, codebook size 5. -/
theorem step_action_id_mod_witness :
    step gwOK sInit (2 + 1 * (gwOK.codebook_size : ℤ)) = step gwOK sInit 2 ∧
    (2 + 1 * (gwOK.codebook_size : ℤ)) % (gwOK.codebook_size : ℤ) =
      2 % (gwOK.codebook_size : ℤ) ∧
    0 ≤ 2 % (gwOK.codebook_size : ℤ) ∧
    2 % (gwOK.codebook_size : ℤ) < (gwOK.codebook_size : ℤ) :=
  step_action_id_mod gwOK sInit 2 1 rfl (by decide)

/-- C7 amended: a malformed message is reported and dropped without any
session-state mutation and without producing a frame, but the handler
loop terminates (the connection is then closed), so the messages after
it on the same connection are never processed. -/
theorem handle_client_malformed_drops (gw : Gateways)
    (rest : List (Option ℤ)) (s : GenieInferenceSession) :
    handle_client gw (none :: rest) s = ⟨s, [], false⟩ := rfl

theorem displayCode_zero : displayCode 0 = 127 := by
  have h : clamp1 0 = 0 := by
    unfold clamp1
    rw [max_eq_right (by norm_num : (-1 : ℚ) ≤ 0),
      min_eq_right (by norm_num : (0 : ℚ) ≤ 1)]
  unfold displayCode
  rw [h]
  norm_num

theorem step_gwOK_sInit_eq :
    step gwOK sInit 0 = ⟨.ok [127], withHistory sInit [[0], [0]],
      [.tokenize [[0]], .vtLatents [0], .lamLatents 0,
       .forwardInference [0] 1 10 (some [0]) (1 / 2), .detokenize [0]]⟩ := by
  norm_num [step, stepAux, gwOK, sInit, n_actions, pySliceLast, withHistory,
    displayCode_zero]

theorem step_gwOK_sW1_eq :
    step gwOK sW1 0 = ⟨.ok [127], withHistory sW1 [[0], [0]],
      [.tokenize [[0]], .vtLatents [0], .lamLatents 0,
       .forwardInference [0] 1 10 (some [0]) (1 / 2), .detokenize [0]]⟩ := by
  norm_num [step, stepAux, gwOK, sInit, sW1, n_actions, pySliceLast, withHistory,
    displayCode_zero]

theorem step_gwOK_sW0_eq :
    step gwOK sW0 0 = ⟨.ok [127], withHistory sW0 [[0], [0]],
      [.tokenize [[0]], .vtLatents [0], .lamLatents 0,
       .forwardInference [0] 1 10 (some [0]) (1 / 2), .detokenize [0]]⟩ := by
  norm_num [step, stepAux, gwOK, sInit, sW0, n_actions, pySliceLast, withHistory,
    displayCode_zero]

theorem handle_client_gwOK_single :
    handle_client gwOK [some 0] sInit =
      ⟨withHistory sInit [[0], [0]], [[127]], true⟩ := by
  simp [handle_client, step_gwOK_sInit_eq]

/-- C7 counterexample: with a malformed first message, the valid message
behind it produces nothing and the loop ends (`completed = false`),
although that same message alone would have produced a frame on the
still-open connection. -/
theorem handle_client_malformed_not_reprocessed :
    handle_client gwOK [none, some 0] sInit = ⟨sInit, [], false⟩ ∧
    (handle_client gwOK [some 0] sInit).sent = [[127]] ∧
    (handle_client gwOK [some 0] sInit).completed = true := by
  refine ⟨rfl, ?_, ?_⟩ <;> rw [handle_client_gwOK_single]

/-- C8 amended: every connection is served by the single session built
in `main`: the session observed through any connection id is the same,
and a message exchange behaves identically whichever connection id it
arrives on. -/
theorem serveConnection_shared_session (gw : Gateways) (st : ServerState)
    (msgs : List (Option ℤ)) (c c' : Nat) :
    sessionFor st c = sessionFor st c' ∧
    serveConnection gw st c msgs = serveConnection gw st c' msgs :=
  ⟨rfl, rfl⟩

/-- C8 counterexample: a step dispatched on connection 0 changes the
history that connection 1 observes, from one frame to two. -/
theorem serveConnection_interference :
    historyLength (sessionFor ⟨sInit⟩ 1) = 1 ∧
    historyLength (sessionFor (serveConnection gwOK ⟨sInit⟩ 0 [some 0]).2 1) = 2 := by
  refine ⟨rfl, ?_⟩
  simp [serveConnection, sessionFor, handle_client_gwOK_single, historyLength,
    withHistory]

/-- C1 counterexample: `set_initial_context` is a session operation that
replaces the history wholesale, so it can shrink `len(FrameHistory)` —
here from 3 frames to 1. -/
theorem set_initial_context_shrinks :
    historyLength sThree = 3 ∧
    historyLength (set_initial_context sThree [[0]]) = 1 :=
  ⟨rfl, rfl⟩

/-- C1 (amended): every successful `step` whose detokenizer honours the
collaborator contract (a successful decode carries at least the `H`
predicted frames) grows the history by exactly
`H = prediction_horizon` frames, appending to the existing history
(which is therefore never shortened by `step`); `set_initial_context`,
the one-time setup, replaces the history and may shorten it. -/
theorem step_extends_history (gw : Gateways) (s : GenieInferenceSession)
    (a : ℤ) (hist : List Frame) (hh : s.generated_frames = some hist)
    (hH : 1 ≤ s.prediction_horizon)
    (hdet : ∀ l fs, gw.detokenize l = .ok fs → s.prediction_horizon ≤ fs.length)
    (out : List ℤ) (hok : (step gw s a).result = .ok out) :
    ∃ hist2, (step gw s a).state.generated_frames = some hist2 ∧
      hist2.length = hist.length + s.prediction_horizon ∧
      ∃ t, hist2 = hist ++ t := by
  rcases step_cases gw s a with ⟨hnone, _⟩ | ⟨hist1, hh1, _, _, hbr⟩
  · rw [hh] at hnone
    simp at hnone
  · rw [hh] at hh1
    injection hh1 with hh1
    subst hh1
    rcases hbr with ⟨m, hr, _, _⟩ | ⟨nf, l, hl, hstate, sub⟩
    · rw [hr] at hok
      simp at hok
    · rcases sub with ⟨hnil, hr⟩ | ⟨f, hlast, hr⟩
      · rw [hr] at hok
        simp at hok
      · have hlen : s.prediction_horizon ≤ nf.length := hdet l nf hl
        refine ⟨hist ++ pySliceLast s.prediction_horizon nf, ?_, ?_, _, rfl⟩
        · rw [hstate]
          rfl
        · rw [List.length_append, pySliceLast_length _ _ (by omega) hlen]

/-- Witness for C1's amended statement with the concrete gateways
`gwOK` and the one-frame session `sInit` (`H = 1`). -/
theorem step_extends_history_witness :
    ∃ hist2, (step gwOK sInit 0).state.generated_frames = some hist2 ∧
      hist2.length = [[(0 : ℚ)]].length + sInit.prediction_horizon ∧
      ∃ t, hist2 = [[(0 : ℚ)]] ++ t :=
  step_extends_history gwOK sInit 0 [[0]] rfl (by decide)
    (fun l fs h => by injection h with h2; rw [← h2]; decide) [127]
    (by rw [step_gwOK_sInit_eq])

/-- C6 (amended): for a session whose context window `W` is at least 1,
each successful `step` on a history of at least `W` frames passes to the
gateway pipeline a context of exactly `W` frames which is a suffix of
the history (the most recent frames, in generation order). -/
theorem step_context_window (gw : Gateways) (s : GenieInferenceSession)
    (a : ℤ) (hist : List Frame) (out : List ℤ)
    (hh : s.generated_frames = some hist) (hW : 1 ≤ s.context_window)
    (hlen : s.context_window ≤ hist.length)
    (hok : (step gw s a).result = .ok out) :
    ∃ ctx, firstContext (step gw s a) = some ctx ∧
      ctx.length = s.context_window ∧ ∃ pre, hist = pre ++ ctx := by
  rcases step_cases gw s a with ⟨hnone, heq⟩ | ⟨hist1, hh1, hctx, _, _⟩
  · rw [heq] at hok
    simp at hok
  · rw [hh] at hh1
    injection hh1 with hh1
    subst hh1
    exact ⟨pySliceLast s.context_window hist, hctx,
      pySliceLast_length _ _ (by omega) hlen, pySliceLast_suffix _ _⟩

/-- Witness for C6's amended statement with `W = 1` and a one-frame
history. -/
theorem step_context_window_witness :
    ∃ ctx, firstContext (step gwOK sW1 0) = some ctx ∧
      ctx.length = sW1.context_window ∧ ∃ pre, [[(0 : ℚ)]] = pre ++ ctx :=
  step_context_window gwOK sW1 0 [[0]] [127] rfl (by decide) (by decide)
    (by rw [step_gwOK_sW1_eq])

/-- C6 counterexample: with `context_window = 0` the Python slice
`[-0:]` selects the whole history, so a successful step passes a context
of length 1, not length `W = 0`. -/
theorem step_context_window_zero :
    sW0.context_window = 0 ∧ historyLength sW0 = 1 ∧
    (step gwOK sW0 0).result = .ok [127] ∧
    firstContext (step gwOK sW0 0) = some [[0]] ∧
    ([[(0 : ℚ)]] : List Frame).length ≠ sW0.context_window := by
  refine ⟨rfl, rfl, by rw [step_gwOK_sW0_eq],
    by rw [step_gwOK_sW0_eq]; rfl, by decide⟩

/-- C10: a successful `step` changes no session field other than
`generated_frames` — device, context window, temperature, prediction
horizon, amp mode and the action-model flag are untouched — and every
`forward_inference` call it makes passes the constant 10 as the
refinement-step count. -/
theorem step_frame_effect (gw : Gateways) (s : GenieInferenceSession)
    (a : ℤ) (out : List ℤ) (hok : (step gw s a).result = .ok out) :
    (step gw s a).state.device = s.device ∧
    (step gw s a).state.context_window = s.context_window ∧
    (step gw s a).state.temperature = s.temperature ∧
    (step gw s a).state.prediction_horizon = s.prediction_horizon ∧
    (step gw s a).state.amp = s.amp ∧
    (step gw s a).state.hasLam = s.hasLam ∧
    ∀ c h n o t, GatewayCall.forwardInference c h n o t ∈ (step gw s a).calls →
      n = 10 := by
  rcases step_cases gw s a with ⟨_, heq⟩ | ⟨hist, _, _, hcalls, hbr⟩
  · rw [heq] at hok
    simp at hok
  · rcases hbr with ⟨m, _, hstate, _⟩ | ⟨nf, l, _, hstate, _⟩ <;>
      rw [hstate] <;> exact ⟨rfl, rfl, rfl, rfl, rfl, rfl, hcalls⟩

/-- Witness for C10 with the concrete gateways `gwOK` and session
`sInit`. -/
theorem step_frame_effect_witness :
    (step gwOK sInit 0).state.device = sInit.device ∧
    (step gwOK sInit 0).state.context_window = sInit.context_window ∧
    (step gwOK sInit 0).state.temperature = sInit.temperature ∧
    (step gwOK sInit 0).state.prediction_horizon = sInit.prediction_horizon ∧
    (step gwOK sInit 0).state.amp = sInit.amp ∧
    (step gwOK sInit 0).state.hasLam = sInit.hasLam ∧
    ∀ c h n o t, GatewayCall.forwardInference c h n o t ∈ (step gwOK sInit 0).calls →
      n = 10 :=
  step_frame_effect gwOK sInit 0 [127] (by rw [step_gwOK_sInit_eq])

theorem gwOK_total : GatewaysTotal gwOK :=
  ⟨fun c => ⟨[0], rfl⟩, fun i => ⟨[0], rfl⟩, fun a => ⟨[0], rfl⟩,
   fun c h n o t => ⟨[0], rfl⟩, fun l => ⟨[[0]], rfl, by simp⟩⟩

/-- C9: seeding a session with fewer than `W` frames is not rejected:
`step` raises no error (given gateways that honour their contract) and
the context it passes onward is under-filled, consisting of exactly all
the frames currently in the history. -/
theorem step_underfilled_context (gw : Gateways) (s : GenieInferenceSession)
    (frames : List Frame) (a : ℤ)
    (hshort : frames.length < s.context_window) (htot : GatewaysTotal gw) :
    firstContext (step gw (set_initial_context s frames) a) = some frames ∧
    ∃ out, (step gw (set_initial_context s frames) a).result = .ok out := by
  have hgen : (set_initial_context s frames).generated_frames = some frames := rfl
  have hfull : pySliceLast (set_initial_context s frames).context_window frames
      = frames := pySliceLast_of_lt _ _ hshort
  rcases step_cases gw (set_initial_context s frames) a with
    ⟨hnone, _⟩ | ⟨hist1, hh1, hctx, _, hbr⟩
  · rw [hgen] at hnone
    simp at hnone
  · rw [hgen] at hh1
    injection hh1 with hh1
    subst hh1
    refine ⟨by rw [hctx, hfull], ?_⟩
    rcases hbr with ⟨m, _, _, c, _, hcfail⟩ | ⟨nf, l, hl, _, sub⟩
    · exfalso
      obtain ⟨h1, h2, h3, h4, h5⟩ := htot
      rcases c with ctx | i | aid | ⟨cc, hh, nn, oo, tt⟩ | ll
      · obtain ⟨m2, hm2⟩ := hcfail
        obtain ⟨i0, hi⟩ := h1 ctx
        rw [hi] at hm2
        simp at hm2
      · obtain ⟨m2, hm2⟩ := hcfail
        obtain ⟨l0, hli⟩ := h2 i
        rw [hli] at hm2
        simp at hm2
      · obtain ⟨m2, hm2⟩ := hcfail
        obtain ⟨l0, hla⟩ := h3 aid
        rw [hla] at hm2
        simp at hm2
      · obtain ⟨m2, hm2⟩ := hcfail
        obtain ⟨l0, hlf⟩ := h4 cc hh nn oo tt
        rw [hlf] at hm2
        simp at hm2
      · obtain ⟨m2, hm2⟩ := hcfail
        obtain ⟨fs, hfs, _⟩ := h5 ll
        rw [hfs] at hm2
        simp at hm2
    · rcases sub with ⟨hnil, _⟩ | ⟨f, _, hr⟩
      · exfalso
        obtain ⟨_, _, _, _, h5⟩ := htot
        obtain ⟨fs, hfs, hne⟩ := h5 l
        rw [hl] at hfs
        injection hfs with h2
        subst h2
        exact hne hnil
      · exact ⟨f.map displayCode, hr⟩

/-- Witness for C9: seeding `sInit` (whose window is 4) with only two
frames still lets `step` succeed, with both frames as the context. -/
theorem step_underfilled_context_witness :
    firstContext (step gwOK (set_initial_context sInit [[0], [0]]) 0) =
      some [[0], [0]] ∧
    ∃ out, (step gwOK (set_initial_context sInit [[0], [0]]) 0).result = .ok out :=
  step_underfilled_context gwOK sInit [[0], [0]] 0 (by decide) gwOK_total

theorem clamp1_eq_self {v : ℚ} (h1 : -1 ≤ v) (h2 : v ≤ 1) : clamp1 v = v := by
  unfold clamp1
  rw [max_eq_right h1, min_eq_right h2]

theorem clamp1_of_one_le {v : ℚ} (h : 1 ≤ v) : clamp1 v = 1 := by
  unfold clamp1
  rw [max_eq_right (le_trans (by norm_num) h), min_eq_left h]

theorem clamp1_of_le_neg_one {v : ℚ} (h : v ≤ -1) : clamp1 v = -1 := by
  unfold clamp1
  rw [max_eq_left h, min_eq_right (by norm_num)]

theorem displayCode_eq_floor_clamp (v : ℚ) :
    displayCode v = max 0 (min 255 ⌊(v + 1) * (255 / 2)⌋) := by
  rcases le_total v (-1) with h | h
  · have h0 : displayCode v = 0 := by
      unfold displayCode
      rw [clamp1_of_le_neg_one h]
      norm_num
    have hfl : ⌊(v + 1) * (255 / 2)⌋ ≤ 0 := by
      have hle : (v + 1) * (255 / 2) ≤ ((0 : ℤ) : ℚ) := by push_cast; nlinarith
      have h2 := Int.floor_le_floor hle
      rwa [Int.floor_intCast] at h2
    rw [h0, min_eq_right (le_trans hfl (by norm_num)), max_eq_left hfl]
  · rcases le_total v 1 with h1 | h1
    · have hge : (0 : ℤ) ≤ ⌊(v + 1) * (255 / 2)⌋ := by
        apply Int.le_floor.mpr
        push_cast
        nlinarith
      have hle255 : ⌊(v + 1) * (255 / 2)⌋ ≤ 255 := by
        have hle : (v + 1) * (255 / 2) ≤ ((255 : ℤ) : ℚ) := by push_cast; nlinarith
        have h2 := Int.floor_le_floor hle
        rwa [Int.floor_intCast] at h2
      unfold displayCode
      rw [clamp1_eq_self h h1, min_eq_right hle255, max_eq_right hge]
    · have h255 : (255 : ℤ) ≤ ⌊(v + 1) * (255 / 2)⌋ := by
        apply Int.le_floor.mpr
        push_cast
        nlinarith
      have hd : displayCode v = 255 := by
        unfold displayCode
        rw [clamp1_of_one_le h1]
        norm_num
      rw [hd, min_eq_left h255, max_eq_right (by norm_num)]

/-- C4 (amended): the conversion `step` applies per value is
`clamp`-then-truncate — `display(v) = clamp(floor((v + 1) * 127.5), 0,
255)` (floor, not round): it maps `[-1, 1]` into `[0, 255]` with
`display(-1) = 0` and `display(1) = 255`, saturates (clamps) on
out-of-range values rather than wrapping, and every frame a successful
`step` returns is some latent frame mapped through it value by value. -/
theorem displayCode_conversion :
    (∀ v : ℚ, displayCode v = max 0 (min 255 ⌊(v + 1) * (255 / 2)⌋)) ∧
    (∀ v : ℚ, -1 ≤ v → v ≤ 1 → 0 ≤ displayCode v ∧ displayCode v ≤ 255) ∧
    displayCode (-1) = 0 ∧ displayCode 1 = 255 ∧
    (∀ v : ℚ, 1 ≤ v → displayCode v = 255) ∧
    (∀ v : ℚ, v ≤ -1 → displayCode v = 0) ∧
    (∀ gw s a out, (step gw s a).result = .ok out → ∃ f : Frame, out = f.map displayCode) := by
  refine ⟨displayCode_eq_floor_clamp, ?_, ?_, ?_, ?_, ?_, ?_⟩
  · intro v h1 h2
    constructor
    · unfold displayCode
      rw [clamp1_eq_self h1 h2]
      apply Int.le_floor.mpr
      push_cast
      nlinarith
    · unfold displayCode
      rw [clamp1_eq_self h1 h2]
      have hle : (v + 1) * (255 / 2) ≤ ((255 : ℤ) : ℚ) := by push_cast; nlinarith
      have h3 := Int.floor_le_floor hle
      rwa [Int.floor_intCast] at h3
  · unfold displayCode
    rw [clamp1_of_le_neg_one (by norm_num)]
    norm_num
  · unfold displayCode
    rw [clamp1_of_one_le (by norm_num)]
    norm_num
  · intro v h
    unfold displayCode
    rw [clamp1_of_one_le h]
    norm_num
  · intro v h
    unfold displayCode
    rw [clamp1_of_le_neg_one h]
    norm_num
  · intro gw s a out hok
    rcases step_cases gw s a with ⟨_, heq⟩ | ⟨hist, _, _, _, hbr⟩
    · rw [heq] at hok
      simp at hok
    · rcases hbr with ⟨m, hr, _, _⟩ | ⟨nf, l, _, _, sub⟩
      · rw [hr] at hok
        simp at hok
      · rcases sub with ⟨_, hr⟩ | ⟨f, _, hr⟩
        · rw [hr] at hok
          simp at hok
        · rw [hr] at hok
          injection hok with h2
          exact ⟨f, h2.symm⟩

/-- Witness for C4's amended statement at the values 1/2, 2, -2 and the
frame returned by a concrete successful step. -/
theorem displayCode_conversion_witness :
    (0 ≤ displayCode (1 / 2) ∧ displayCode (1 / 2) ≤ 255) ∧
    displayCode 2 = 255 ∧ displayCode (-2) = 0 ∧
    ∃ f : Frame, [(127 : ℤ)] = f.map displayCode :=
  ⟨displayCode_conversion.2.1 (1 / 2) (by norm_num) (by norm_num),
   displayCode_conversion.2.2.2.2.1 2 (by norm_num),
   displayCode_conversion.2.2.2.2.2.1 (-2) (by norm_num),
   displayCode_conversion.2.2.2.2.2.2 gwOK sInit 0 [127]
     (by rw [step_gwOK_sInit_eq])⟩

/-- C4 counterexample: at latent value 0 a successful `step` returns the
byte 127 (truncation of 127.5), while the spec's formula with rounding
gives 128 — the code truncates where the claim says it rounds. -/
theorem display_spec_mismatch :
    (step gwOK sInit 0).result = .ok [127] ∧
    displayCode 0 = 127 ∧ display_spec 0 = 128 ∧ (127 : ℤ) ≠ 128 := by
  refine ⟨by rw [step_gwOK_sInit_eq], displayCode_zero, ?_, by decide⟩
  unfold display_spec
  rw [round_eq]
  have h : ⌊(0 + 1 : ℚ) * (255 / 2) + 1 / 2⌋ = 128 := by norm_num
  rw [h, min_eq_right (by norm_num : (128 : ℤ) ≤ 255),
    max_eq_right (by norm_num : (0 : ℤ) ≤ 128)]

end SandlotSluggers

